import Mathlib

/-!
Verification model of the `matcha` terminal-UI runtime
(crates/matcha/src: `formatter.rs`, `lib.rs`, `termable.rs`, `messages.rs`).

Strings are modelled at grapheme granularity as `List Char`: every element
stands for one grapheme of the Rust iteration `s.graphemes(true)`.  The
byte test `grapheme.as_bytes().first()` used by the escape-sequence scanner
is faithful on this model because for ASCII graphemes the first byte equals
the code point, and the first UTF-8 byte of any non-ASCII grapheme is at
least 0xC2, outside both terminator ranges.
-/

namespace Matcha

/-- The escape character `\x1b` that starts an ANSI escape sequence. -/
def escChar : Char := '\x1b'

/-- Terminator test of the escape scanners in `formatter.rs`: the first byte
of the grapheme lies in `0x40..=0x5c` or `0x61..=0x7a`. -/
def isEscTerminator (c : Char) : Bool :=
  (0x40 ≤ c.toNat && c.toNat ≤ 0x5c) || (0x61 ≤ c.toNat && c.toNat ≤ 0x7a)

/-- Modelled from the spec: display width of one grapheme, standing for the
external `unicode-width` crate used by `formatter.rs` (not part of this
repository).  Control characters measure 0 columns, the East-Asian wide
blocks exercised by the repository tests measure 2, everything else 1. -/
def charWidth (c : Char) : Nat :=
  if c.toNat < 0x20 || c.toNat = 0x7f then 0
  else if (0x1100 ≤ c.toNat && c.toNat ≤ 0x115f)
       || (0x2e80 ≤ c.toNat && c.toNat ≤ 0x303e)
       || (0x3041 ≤ c.toNat && c.toNat ≤ 0x33ff)
       || (0x3400 ≤ c.toNat && c.toNat ≤ 0x4dbf)
       || (0x4e00 ≤ c.toNat && c.toNat ≤ 0x9fff)
       || (0xac00 ≤ c.toNat && c.toNat ≤ 0xd7a3)
       || (0xff00 ≤ c.toNat && c.toNat ≤ 0xff60) then 2
  else 1

/-- Display width of a string (`UnicodeWidthStr::width`): sum of the
grapheme widths. -/
def strWidth (s : List Char) : Nat := (s.map charWidth).sum

/-- Parsing states of the escape-sequence loops in `formatter.rs`:
`normal` is the top of the outer grapheme loop, `afterEsc` is the position
immediately after an escape character (the source consumes one grapheme
there, the `[` introducer), `inBody` is the inner loop that runs until the
first terminator grapheme. -/
inductive EscMode where
  | normal
  | afterEsc
  | inBody
  deriving DecidableEq, Repr

/-- Function `clamp_by` of `formatter.rs`, as a state machine over the grapheme list.
In `normal` state a visible grapheme is kept while the accumulated width
stays within `maxWidth`; once a grapheme overflows, `clamped` is set and
all later visible graphemes are dropped.  Escape sequences are copied
verbatim: the escape character, then one grapheme unconditionally, then
graphemes up to and including the first terminator. -/
def clampAux (maxWidth : Nat) : List Char → EscMode → Nat → Bool → List Char
  | [], _, _, _ => []
  | c :: gs, .normal, width, clamped =>
    if c = escChar then c :: clampAux maxWidth gs .afterEsc width clamped
    else if clamped then clampAux maxWidth gs .normal width clamped
    else if maxWidth < width + charWidth c then clampAux maxWidth gs .normal width true
    else c :: clampAux maxWidth gs .normal (width + charWidth c) clamped
  | c :: gs, .afterEsc, width, clamped => c :: clampAux maxWidth gs .inBody width clamped
  | c :: gs, .inBody, width, clamped =>
    if isEscTerminator c then c :: clampAux maxWidth gs .normal width clamped
    else c :: clampAux maxWidth gs .inBody width clamped

/-- Source function `clamp_by(s, max_width)` from `formatter.rs`. -/
def clamp_by (s : List Char) (maxWidth : Nat) : List Char :=
  clampAux maxWidth s .normal 0 false

/-- Function `remove_escape_sequences` of `formatter.rs`, as a state machine.
Note the source quirk: when the grapheme right after an escape character is
not `[`, the outer loop `break`s, so the remainder of the string is
discarded (`afterEsc` state returning `[]`). -/
def removeAux : List Char → EscMode → List Char
  | [], _ => []
  | c :: gs, .normal =>
    if c = escChar then removeAux gs .afterEsc else c :: removeAux gs .normal
  | c :: gs, .afterEsc => if c = '[' then removeAux gs .inBody else []
  | c :: gs, .inBody =>
    if isEscTerminator c then removeAux gs .normal else removeAux gs .inBody

/-- Source function `remove_escape_sequences(text)` from `formatter.rs`. -/
def remove_escape_sequences (s : List Char) : List Char := removeAux s .normal

/-- Source function `fill_by_space(target, max_width)` from `formatter.rs`: pad with spaces
up to the width `max_width.saturating_sub(width-after-removal)`. -/
def fill_by_space (target : List Char) (maxWidth : Nat) : List Char :=
  let d := maxWidth - strWidth (remove_escape_sequences target)
  if d ≠ 0 then target ++ List.replicate d ' ' else target

/-- Rust `str::split('\n')`: always returns at least one (possibly empty)
piece. -/
def splitLines : List Char → List (List Char)
  | [] => [[]]
  | c :: gs =>
    if c = '\n' then [] :: splitLines gs
    else
      match splitLines gs with
      | [] => [[c]]
      | l :: ls => (c :: l) :: ls

/-- Rust `Vec::join("\r\n")` on the formatted lines. -/
def joinCRLF : List (List Char) → List Char
  | [] => []
  | [l] => l
  | l :: ls => l ++ '\r' :: '\n' :: joinCRLF ls

/-- The line list produced by `format` in `formatter.rs`: split on `\n`,
reverse, take the first `h` (the last `h` lines), clamp and pad each,
reverse back. -/
def formatLines (view : List Char) (w h : Nat) : List (List Char) :=
  (((splitLines view).reverse.take h).map (fun l => fill_by_space (clamp_by l w) w)).reverse

/-- Source function `format(view, size)` from `formatter.rs`. -/
def format (view : List Char) (size : Nat × Nat) : List Char :=
  joinCRLF (formatLines view size.1 size.2)

/-- Rust `prev_view.matches("\r\n").count()`: leftmost non-overlapping
occurrences of the two-character separator. -/
def countCRLF : List Char → Nat
  | '\r' :: '\n' :: rest => 1 + countCRLF rest
  | _ :: rest => countCRLF rest
  | [] => 0

/-! ## The runtime event loop (`Program::inner_start` in `lib.rs`)

The loop owns the `Model` and the render state.  The user model is a type
parameter `M` together with its transition functions; `C` is the type of
commands as seen by the loop (the loop never runs a command, it only
forwards it on the command channel), `U` the type of user-defined message
payloads.  Terminal calls are recorded as a trace of `TermOp`s, as the
`FakeTerminal` of the repository tests does; the trace model corresponds
to runs in which terminal operations succeed. -/

/-- One side-effecting call on the `Termable` boundary. -/
inductive TermOp where
  | hideCursor
  | showCursor
  | enableRawMode
  | disableRawMode
  | enterAltScreen
  | leaveAltScreen
  | clearAll
  | moveToColumn (n : Nat)
  | clearCurrentLine
  | clearCurrentLineAndMovePrevious
  | printOp (s : List Char)
  deriving DecidableEq, Repr

/-- The message shapes the main loop distinguishes by downcast:
`QuitMsg`, `BatchMsg` (a `Vec<Cmd>`), `ResizeEvent`, `EnterAltScreenMsg`,
and everything else (`user`), which the loop hands to `Model::update`
without interpreting it. -/
inductive LoopMsg (U C : Type) where
  | quitMsg
  | batchMsg (cmds : List C)
  | resizeEvent (w h : Nat)
  | enterAltScreenMsg
  | user (u : U)
  deriving DecidableEq

/-- The mutable state of `Program` while the main loop runs: the model,
the recorded terminal size, the alternate-screen flag and the previously
rendered frame (`prev_view`). -/
structure LoopState (M : Type) where
  model : M
  size : Nat × Nat
  altScreen : Bool
  prevView : List Char
  deriving DecidableEq, Repr

/-- How one loop iteration ends: continue with the next message, `break`
out of the loop (quit or failed send of an update command), or panic
(`unwrap` on a failed send while re-enqueueing batch members). -/
inductive Control where
  | cont
  | brk
  | panicked
  deriving DecidableEq, Repr

/-- Observable outcome of one loop iteration: successor state, commands
sent on the command channel, terminal operations performed, the messages
handed to `Model::update` (none or exactly the received one) and the
number of `Model::view` calls. -/
structure StepOut (M C U : Type) where
  st : LoopState M
  sent : List C
  ops : List TermOp
  updates : List (LoopMsg U C)
  views : Nat
  control : Control
  deriving DecidableEq

/-- State change performed before `update` is called: a `ResizeEvent`
records the new size, an `EnterAltScreenMsg` sets the alternate-screen
flag (lines 460-470 of `lib.rs`). -/
def preState {M C U : Type} (st : LoopState M) : LoopMsg U C → LoopState M
  | .resizeEvent w h => { st with size := (w, h) }
  | .enterAltScreenMsg => { st with altScreen := true }
  | _ => st

/-- Terminal calls performed before `update`: only `EnterAltScreenMsg`
triggers any (`enter_alt_screen` then `clear_all`). -/
def preOps {U C : Type} : LoopMsg U C → List TermOp
  | .enterAltScreenMsg => [TermOp.enterAltScreen, TermOp.clearAll]
  | _ => []

/-- Terminal calls of the redraw path (lines 491-505 of `lib.rs`): in
alternate-screen mode a full clear; otherwise move to column 0, clear the
current line and move up once per `\r\n` of the previous frame; then the
print of the new frame. -/
def renderOps (altScreen : Bool) (prevView current : List Char) : List TermOp :=
  (if altScreen then [TermOp.clearAll]
   else TermOp.moveToColumn 0 :: TermOp.clearCurrentLine ::
     List.replicate (countCRLF prevView) TermOp.clearCurrentLineAndMovePrevious)
  ++ [TermOp.printOp current]

/-- The tail of a loop iteration after the pre-handling: call
`Model::update`, forward a returned command (a failed send breaks the
loop before any render), format the view at the current size and skip the
redraw when the frame is unchanged. -/
def updateAndRender {M C U : Type} (upd : M → LoopMsg U C → M × Option C)
    (vw : M → List Char) (cmdClosed : Bool) (st : LoopState M)
    (msg : LoopMsg U C) (pre : List TermOp) : StepOut M C U :=
  let u := upd st.model msg
  let st1 : LoopState M := { st with model := u.1 }
  let deliver : List C → StepOut M C U := fun sent =>
    let current := format (vw st1.model) st1.size
    if current = st1.prevView then ⟨st1, sent, pre, [msg], 1, .cont⟩
    else
      ⟨{ st1 with prevView := current }, sent,
        pre ++ renderOps st1.altScreen st1.prevView current, [msg], 1, .cont⟩
  match u.2 with
  | some c => if cmdClosed then ⟨st1, [], pre, [msg], 0, .brk⟩ else deliver [c]
  | none => deliver []

/-- One iteration of the main loop of `Program::inner_start`
(lines 439-507 of `lib.rs`), for one received message.  `cmdClosed`
states whether sends on the command channel fail. -/
def step {M C U : Type} (upd : M → LoopMsg U C → M × Option C)
    (vw : M → List Char) (cmdClosed : Bool) (st : LoopState M) :
    LoopMsg U C → StepOut M C U
  | .quitMsg => ⟨st, [], [], [], 0, .brk⟩
  | .batchMsg cmds =>
    if cmdClosed && !cmds.isEmpty then ⟨st, [], [], [], 0, .panicked⟩
    else ⟨st, cmds, [], [], 0, .cont⟩
  | .resizeEvent w h =>
    let msg : LoopMsg U C := .resizeEvent w h
    updateAndRender upd vw cmdClosed (preState st msg) msg (preOps msg)
  | .enterAltScreenMsg =>
    let msg : LoopMsg U C := .enterAltScreenMsg
    updateAndRender upd vw cmdClosed (preState st msg) msg (preOps msg)
  | .user u =>
    let msg : LoopMsg U C := .user u
    updateAndRender upd vw cmdClosed (preState st msg) msg (preOps msg)

/-- Aggregated observation of a run of the main loop over a message
sequence. -/
structure RunOut (M C U : Type) where
  st : LoopState M
  sent : List C
  ops : List TermOp
  updates : List (LoopMsg U C)
  views : Nat
  control : Control
  deriving DecidableEq

/-- The main loop of `Program::inner_start` over a finite message
sequence: iterate `step` until a `brk` or panic, aggregating the
observations. -/
def run {M C U : Type} (upd : M → LoopMsg U C → M × Option C)
    (vw : M → List Char) (cmdClosed : Bool) (st : LoopState M) :
    List (LoopMsg U C) → RunOut M C U
  | [] => ⟨st, [], [], [], 0, .cont⟩
  | msg :: msgs =>
    let o := step upd vw cmdClosed st msg
    match o.control with
    | .cont =>
      let r := run upd vw cmdClosed o.st msgs
      ⟨r.st, o.sent ++ r.sent, o.ops ++ r.ops, o.updates ++ r.updates,
        o.views + r.views, r.control⟩
    | c => ⟨o.st, o.sent, o.ops, o.updates, o.views, c⟩

/-- Startup of `Program::inner_start` before the main loop
(`Program::init`, lines 306-316, and the initial rendering, lines
425-435): `Model::init` runs first and its command is queued on the
command channel; then the cursor is hidden, raw mode enabled, the
alternate screen entered and cleared only if requested up front, and the
first frame printed unconditionally. -/
def startup {M C : Type} (initF : M → Nat × Nat → M × Option C)
    (vw : M → List Char) (model0 : M) (size0 : Nat × Nat)
    (altScreen0 : Bool) : LoopState M × List C × List TermOp :=
  let inited := initF model0 size0
  let queued : List C := match inited.2 with | some c => [c] | none => []
  let frame0 := format (vw inited.1) size0
  let ops :=
    [TermOp.hideCursor, TermOp.enableRawMode]
    ++ (if altScreen0 then [TermOp.enterAltScreen, TermOp.clearAll] else [])
    ++ [TermOp.printOp frame0]
  (⟨inited.1, size0, altScreen0, frame0⟩, queued, ops)

/-- The frame that a loop iteration on `msg` will format: the view of the
updated model at the size recorded after the pre-handling of `msg`. -/
def nextFrame {M C U : Type} (upd : M → LoopMsg U C → M × Option C)
    (vw : M → List Char) (st : LoopState M) (msg : LoopMsg U C) : List Char :=
  format (vw (upd st.model msg).1) (preState (C := C) st msg).size

/-- Is the operation a `print` call? -/
def isPrintOp : TermOp → Bool
  | TermOp.printOp _ => true
  | _ => false

/-- Number of `print` calls in a terminal trace. -/
def countPrints (ops : List TermOp) : Nat := (ops.filter isPrintOp).length

/-- Messages that reach `Model::update`: everything except `QuitMsg` and
`BatchMsg`. -/
def isUpdateMsg {U C : Type} : LoopMsg U C → Bool
  | .quitMsg => false
  | .batchMsg _ => false
  | _ => true

/-! ## Terminal restoration (`Program::cleanup_terminal`, lib.rs 523-545) -/

/-- The four restoration operations of a terminal backend, each returning
success or an error, as the `Termable` trait exposes them to
`cleanup_terminal`. -/
structure CleanupBackend (E : Type) where
  disable_raw_mode : Except E Unit
  show_cursor : Except E Unit
  disable_mouse_capture : Except E Unit
  leave_alt_screen : Except E Unit

/-- The `record` closure of `cleanup_terminal`: invoke one step (append
its label to the invocation trace) and keep the first error. -/
def recordStep {E : Type} (acc : List String × Option (String × E))
    (result : Except E Unit) (label : String) :
    List String × Option (String × E) :=
  let invoked := acc.1 ++ [label]
  match result with
  | .error e => (invoked, match acc.2 with | none => some (label, e) | some fe => some fe)
  | .ok _ => (invoked, acc.2)

/-- Method `Program::cleanup_terminal`: restoration steps in fixed order, the
last only when the alternate screen was used; returns the invocation
trace (what the fake terminal of the repository tests records) and the
overall result carrying the first error. -/
def cleanup_terminal {E : Type} (term : CleanupBackend E)
    (usedAltScreen : Bool) : List String × Except (String × E) Unit :=
  let acc0 : List String × Option (String × E) := ([], none)
  let acc1 := recordStep acc0 term.disable_raw_mode ("disable raw mode")
  let acc2 := recordStep acc1 term.show_cursor ("show cursor")
  let acc3 := recordStep acc2 term.disable_mouse_capture ("disable mouse capture")
  let acc4 :=
    if usedAltScreen then recordStep acc3 term.leave_alt_screen ("leave alternate screen")
    else acc3
  match acc4.2 with
  | some fe => (acc4.1, .error fe)
  | none => (acc4.1, .ok ())

/-! ## Command executor (`Program::inner_start`, lib.rs 387-423) -/

/-- Type `Cmd` of `lib.rs`: a synchronous or asynchronous one-shot thunk
producing a message. -/
inductive Cmd (Msg : Type) where
  | sync (thunk : Unit → Msg)
  | async (thunk : Unit → Msg)

/-- Body of the task spawned for an `Cmd::Async` (lib.rs 396-412):
`Model::execute` is called with the Extensions snapshot (`clone` of an
`Arc`-backed map, the identity in this pure model) and the thunk; a
returned `Some(Sync)` is run at once and its message sent on the message
channel, any other `Some` command is resubmitted on the command channel,
`None` produces nothing.  The result is the pair (messages sent,
commands resubmitted). -/
def handleAsync {Ext Msg : Type}
    (execute : Ext → (Unit → Msg) → Option (Cmd Msg)) (ext : Ext)
    (thunk : Unit → Msg) : List Msg × List (Cmd Msg) :=
  match execute ext thunk with
  | some (Cmd.sync t) => ([t ()], [])
  | some cmd => ([], [cmd])
  | none => ([], [])

/-- One iteration of the executor loop (lib.rs 389-421): a synchronous
command is run inline and its message sent; an asynchronous command is
handed to `handleAsync` on a spawned task. -/
def execStep {Ext Msg : Type}
    (execute : Ext → (Unit → Msg) → Option (Cmd Msg)) (ext : Ext) :
    Cmd Msg → List Msg × List (Cmd Msg)
  | Cmd.sync t => ([t ()], [])
  | Cmd.async t => handleAsync execute ext t

/-! ## Program construction (`Program::new`, `Program::new_with_terminal`,
lib.rs 256-282).  Both constructors call `term.size().unwrap()`; `none`
models the panic of `unwrap` on a failed size query. -/

/-- The fields of `Program` that construction initializes (the terminal
handle and input receiver are captured by the surrounding model). -/
structure ProgramState (M Ext : Type) where
  model : M
  extensions : Ext
  size : Nat × Nat
  alt_screen : Bool
  deriving DecidableEq, Repr

/-- Constructor `Program::new` given the outcome of the default backend size query. -/
def Program.new {M Ext E : Type} (model : M) (extensions : Ext)
    (term_size : Except E (Nat × Nat)) : Option (ProgramState M Ext) :=
  match term_size with
  | .ok wh => some ⟨model, extensions, wh, false⟩
  | .error _ => none

/-- Constructor `Program::new_with_terminal` given the injected backend size query. -/
def Program.new_with_terminal {M Ext E : Type} (model : M) (extensions : Ext)
    (term_size : Except E (Nat × Nat)) : Option (ProgramState M Ext) :=
  match term_size with
  | .ok wh => some ⟨model, extensions, wh, false⟩
  | .error _ => none

/-! ## Reference definitions written from the spec wording, for the
refinement claims about the escape scanner. -/

/-- Written from the claim wording: an escape sequence runs from an escape
character through the first following grapheme whose leading byte lies in
`0x40..=0x5c` or `0x61..=0x7a`; such sequences are skipped entirely and
every other grapheme is returned unchanged, in order.  The `Bool` state
says whether the scanner is inside a sequence. -/
def removeEscapesClaimAux : List Char → Bool → List Char
  | [], _ => []
  | c :: gs, false =>
    if c = escChar then removeEscapesClaimAux gs true
    else c :: removeEscapesClaimAux gs false
  | c :: gs, true =>
    if isEscTerminator c then removeEscapesClaimAux gs false
    else removeEscapesClaimAux gs true

/-- Entry point of the claim-worded escape removal. -/
def removeEscapesClaim (s : List Char) : List Char := removeEscapesClaimAux s false

/-- Written from the amended claim wording: an escape sequence runs from
the escape character, through the one introducer grapheme after it, to
the first later grapheme whose leading byte is in the terminator range;
the sequence is skipped and all other graphemes kept in order. -/
def removeEscapesAmendedAux : List Char → EscMode → List Char
  | [], _ => []
  | c :: gs, .normal =>
    if c = escChar then removeEscapesAmendedAux gs .afterEsc
    else c :: removeEscapesAmendedAux gs .normal
  | _ :: gs, .afterEsc => removeEscapesAmendedAux gs .inBody
  | c :: gs, .inBody =>
    if isEscTerminator c then removeEscapesAmendedAux gs .normal
    else removeEscapesAmendedAux gs .inBody

/-- Does every escape sequence of the string carry the `[` introducer
(the grapheme right after each escape character is `[`)?  On such strings
the source scanner never takes its early `break`. -/
def introducersOk : List Char → EscMode → Bool
  | [], _ => true
  | c :: gs, .normal =>
    if c = escChar then introducersOk gs .afterEsc else introducersOk gs .normal
  | c :: gs, .afterEsc => c = '[' && introducersOk gs .inBody
  | c :: gs, .inBody =>
    if isEscTerminator c then introducersOk gs .normal else introducersOk gs .inBody

/-- Final parser position of `remove_escape_sequences` on a string:
either the `EscMode` it ends in, or `broken` when the scanner hit its
early `break` (escape character not followed by `[`) and discarded the
remainder. -/
inductive ParseEnd where
  | mode (m : EscMode)
  | broken
  deriving DecidableEq, Repr

/-- Compute the final parser position of `removeAux`. -/
def removeEnd : List Char → EscMode → ParseEnd
  | [], m => .mode m
  | c :: gs, .normal =>
    if c = escChar then removeEnd gs .afterEsc else removeEnd gs .normal
  | c :: gs, .afterEsc => if c = '[' then removeEnd gs .inBody else .broken
  | c :: gs, .inBody =>
    if isEscTerminator c then removeEnd gs .normal else removeEnd gs .inBody

/-- A line whose escape sequences are all complete CSI sequences: every
escape character is followed by `[` and every body reaches a terminator,
so the scan ends in the `normal` state. -/
def escComplete (s : List Char) : Prop :=
  removeEnd s .normal = ParseEnd.mode EscMode.normal

instance (s : List Char) : Decidable (escComplete s) := by
  unfold escComplete; infer_instance

/-! ## Helper lemmas about the escape scanners -/

theorem space_ne_escChar : (' ' : Char) ≠ escChar := by decide

theorem space_ne_lbracket : (' ' : Char) ≠ '[' := by decide

theorem space_not_terminator : isEscTerminator ' ' = false := by decide

theorem charWidth_space : charWidth ' ' = 1 := by decide

theorem strWidth_nil : strWidth [] = 0 := rfl

theorem strWidth_cons (c : Char) (s : List Char) :
    strWidth (c :: s) = charWidth c + strWidth s := by
  simp [strWidth]

theorem strWidth_append (s t : List Char) :
    strWidth (s ++ t) = strWidth s + strWidth t := by
  simp [strWidth]

theorem strWidth_replicate_space (d : Nat) :
    strWidth (List.replicate d ' ') = d := by
  induction d with
  | zero => rfl
  | succ n ih =>
    simp [List.replicate_succ, strWidth_cons, charWidth_space, ih]
    omega

theorem removeAux_append (s t : List Char) (m : EscMode) :
    removeAux (s ++ t) m =
      removeAux s m ++
        (match removeEnd s m with
         | ParseEnd.mode m2 => removeAux t m2
         | ParseEnd.broken => []) := by
  induction s generalizing m with
  | nil => simp [removeAux, removeEnd]
  | cons c gs ih =>
    cases m with
    | normal => by_cases hc : c = escChar <;> simp [removeAux, removeEnd, hc, ih]
    | afterEsc => by_cases hc : c = '[' <;> simp [removeAux, removeEnd, hc, ih]
    | inBody => by_cases hc : isEscTerminator c <;> simp [removeAux, removeEnd, hc, ih]

theorem removeAux_replicate_space (d : Nat) (m : EscMode) :
    removeAux (List.replicate d ' ') m =
      if m = EscMode.normal then List.replicate d ' ' else [] := by
  induction d generalizing m with
  | zero => cases m <;> simp [removeAux]
  | succ n ih =>
    cases m <;>
      simp [List.replicate_succ, removeAux, space_ne_escChar, space_ne_lbracket,
        space_not_terminator, ih]

theorem clampAux_visible_clamped (w : Nat) (l : List Char) :
    ∀ (m : EscMode) (width : Nat),
      strWidth (removeAux (clampAux w l m width true) m) = 0 := by
  induction l with
  | nil => intro m width; simp [clampAux, removeAux, strWidth]
  | cons c gs ih =>
    intro m width
    cases m with
    | normal => by_cases hc : c = escChar <;> simp [clampAux, removeAux, hc, ih]
    | afterEsc =>
      by_cases hc : c = '['
      · simpa [clampAux, removeAux, hc] using ih .inBody width
      · simp [clampAux, removeAux, hc, strWidth]
    | inBody => by_cases hc : isEscTerminator c <;> simp [clampAux, removeAux, hc, ih]

theorem clampAux_visible_le (w : Nat) (l : List Char) :
    ∀ (m : EscMode) (width : Nat), width ≤ w →
      strWidth (removeAux (clampAux w l m width false) m) + width ≤ w := by
  induction l with
  | nil => intro m width hw; simpa [clampAux, removeAux, strWidth] using hw
  | cons c gs ih =>
    intro m width hw
    cases m with
    | normal =>
      by_cases hc : c = escChar
      · simpa [clampAux, removeAux, hc] using ih .afterEsc width hw
      · by_cases hov : w < width + charWidth c
        · have h0 := clampAux_visible_clamped w gs .normal width
          simp [clampAux, hc, hov]
          omega
        · have hrec := ih .normal (width + charWidth c) (by omega)
          simp [clampAux, hc, hov, removeAux, strWidth_cons]
          omega
    | afterEsc =>
      by_cases hc : c = '['
      · simpa [clampAux, removeAux, hc] using ih .inBody width hw
      · simp [clampAux, removeAux, hc, strWidth]; omega
    | inBody =>
      by_cases hc : isEscTerminator c
      · simpa [clampAux, removeAux, hc] using ih .normal width hw
      · simpa [clampAux, removeAux, hc] using ih .inBody width hw

theorem clamp_by_visible_le (l : List Char) (w : Nat) :
    strWidth (remove_escape_sequences (clamp_by l w)) ≤ w := by
  simpa [clamp_by, remove_escape_sequences] using
    clampAux_visible_le w l .normal 0 (Nat.zero_le w)

theorem clampAux_end_normal (w : Nat) (l : List Char) :
    ∀ (m : EscMode) (width : Nat) (clamped : Bool),
      removeEnd l m = ParseEnd.mode EscMode.normal →
      removeEnd (clampAux w l m width clamped) m = ParseEnd.mode EscMode.normal := by
  induction l with
  | nil => intro m width clamped h; simpa [clampAux, removeEnd] using h
  | cons c gs ih =>
    intro m width clamped h
    cases m with
    | normal =>
      by_cases hc : c = escChar
      · have h2 : removeEnd gs .afterEsc = .mode .normal := by
          simpa [removeEnd, hc] using h
        by_cases hcl : clamped <;>
          simpa [clampAux, removeEnd, hc, hcl] using ih .afterEsc width clamped h2
      · have h2 : removeEnd gs .normal = .mode .normal := by
          simpa [removeEnd, hc] using h
        by_cases hcl : clamped
        · simpa [clampAux, removeEnd, hc, hcl] using ih .normal width true h2
        · by_cases hov : w < width + charWidth c
          · simpa [clampAux, removeEnd, hc, hcl, hov] using ih .normal width true h2
          · simpa [clampAux, removeEnd, hc, hcl, hov] using
              ih .normal (width + charWidth c) false h2
    | afterEsc =>
      by_cases hc : c = '['
      · have h2 : removeEnd gs .inBody = .mode .normal := by
          simpa [removeEnd, hc] using h
        simpa [clampAux, removeEnd, hc] using ih .inBody width clamped h2
      · simp [removeEnd, hc] at h
    | inBody =>
      by_cases hc : isEscTerminator c
      · have h2 : removeEnd gs .normal = .mode .normal := by
          simpa [removeEnd, hc] using h
        simpa [clampAux, removeEnd, hc] using ih .normal width clamped h2
      · have h2 : removeEnd gs .inBody = .mode .normal := by
          simpa [removeEnd, hc] using h
        simpa [clampAux, removeEnd, hc] using ih .inBody width clamped h2

theorem remove_append_replicate_space (t : List Char) (d : Nat) :
    remove_escape_sequences (t ++ List.replicate d ' ')
      = remove_escape_sequences t ++
        (match removeEnd t .normal with
         | ParseEnd.mode EscMode.normal => List.replicate d ' '
         | _ => []) := by
  unfold remove_escape_sequences
  rw [removeAux_append]
  cases hend : removeEnd t .normal with
  | mode m2 => cases m2 <;> simp [removeAux_replicate_space]
  | broken => simp

theorem fill_visible_eq (t : List Char) (w : Nat)
    (hend : removeEnd t .normal = ParseEnd.mode EscMode.normal)
    (hle : strWidth (remove_escape_sequences t) ≤ w) :
    strWidth (remove_escape_sequences (fill_by_space t w)) = w := by
  simp only [fill_by_space]
  by_cases hd : w - strWidth (remove_escape_sequences t) = 0
  · simp [hd]
    omega
  · rw [if_pos hd, remove_append_replicate_space, hend]
    simp [strWidth_append, strWidth_replicate_space]
    omega

theorem fill_visible_le (t : List Char) (w : Nat)
    (hle : strWidth (remove_escape_sequences t) ≤ w) :
    strWidth (remove_escape_sequences (fill_by_space t w)) ≤ w := by
  simp only [fill_by_space]
  by_cases hd : w - strWidth (remove_escape_sequences t) = 0
  · simpa [hd] using hle
  · rw [if_pos hd, remove_append_replicate_space]
    cases hend : removeEnd t .normal with
    | mode m2 =>
      cases m2 <;>
        simp [strWidth_append, strWidth_replicate_space, strWidth_nil] <;> omega
    | broken => simpa [strWidth_append, strWidth_nil] using hle

theorem removeAux_eq_amended (s : List Char) :
    ∀ m : EscMode, introducersOk s m = true →
      removeAux s m = removeEscapesAmendedAux s m := by
  induction s with
  | nil => intro m _; rfl
  | cons c gs ih =>
    intro m h
    cases m with
    | normal =>
      by_cases hc : c = escChar
      · have h2 : introducersOk gs .afterEsc = true := by
          simpa [introducersOk, hc] using h
        simp [removeAux, removeEscapesAmendedAux, hc]
        exact ih .afterEsc h2
      · have h2 : introducersOk gs .normal = true := by
          simpa [introducersOk, hc] using h
        simp [removeAux, removeEscapesAmendedAux, hc]
        exact ih .normal h2
    | afterEsc =>
      have hc : c = '[' := by
        by_contra hcn
        simp [introducersOk, hcn] at h
      have h2 : introducersOk gs .inBody = true := by
        simpa [introducersOk, hc] using h
      simp [removeAux, removeEscapesAmendedAux, hc]
      exact ih .inBody h2
    | inBody =>
      by_cases hc : isEscTerminator c
      · have h2 : introducersOk gs .normal = true := by
          simpa [introducersOk, hc] using h
        simp [removeAux, removeEscapesAmendedAux, hc]
        exact ih .normal h2
      · have h2 : introducersOk gs .inBody = true := by
          simpa [introducersOk, hc] using h
        simp [removeAux, removeEscapesAmendedAux, hc]
        exact ih .inBody h2

theorem formatLines_eq_drop (view : List Char) (w h : Nat) :
    formatLines view w h
      = ((splitLines view).drop ((splitLines view).length - h)).map
          (fun l => fill_by_space (clamp_by l w) w) := by
  have hrt := List.rtake_eq_reverse_take_reverse (l := splitLines view) (n := h)
  unfold List.rtake at hrt
  rw [formatLines, ← List.map_reverse, hrt]

theorem formatLines_length_le (view : List Char) (w h : Nat) :
    (formatLines view w h).length ≤ h := by
  rw [formatLines]
  simp

theorem mem_splitLines_of_mem_take (view : List Char) (h : Nat) (l : List Char)
    (hl : l ∈ (splitLines view).reverse.take h) : l ∈ splitLines view := by
  have hmem := List.take_subset h (splitLines view).reverse hl
  simp only [List.mem_reverse] at hmem
  exact hmem

/-! ## Helper lemmas about the main-loop model -/

theorem preState_model {M C U : Type} (st : LoopState M) (msg : LoopMsg U C) :
    (preState st msg).model = st.model := by
  cases msg <;> rfl

theorem preState_prevView {M C U : Type} (st : LoopState M) (msg : LoopMsg U C) :
    (preState st msg).prevView = st.prevView := by
  cases msg <;> rfl

theorem step_eq_updateAndRender {M C U : Type} (upd : M → LoopMsg U C → M × Option C)
    (vw : M → List Char) (b : Bool) (st : LoopState M) (msg : LoopMsg U C)
    (hmsg : isUpdateMsg msg = true) :
    step upd vw b st msg
      = updateAndRender upd vw b (preState st msg) msg (preOps msg) := by
  cases msg <;> simp_all [step, isUpdateMsg]

theorem step_update_skip {M C U : Type} (upd : M → LoopMsg U C → M × Option C)
    (vw : M → List Char) (st : LoopState M) (msg : LoopMsg U C)
    (hmsg : isUpdateMsg msg = true)
    (heq : nextFrame upd vw st msg = st.prevView) :
    step upd vw false st msg
      = ⟨{ preState st msg with model := (upd st.model msg).1 },
         (match (upd st.model msg).2 with | some c => [c] | none => []),
         preOps msg, [msg], 1, Control.cont⟩ := by
  rw [step_eq_updateAndRender upd vw false st msg hmsg]
  unfold updateAndRender
  unfold nextFrame at heq
  rw [preState_model]
  have hpv : ({ preState st msg with model := (upd st.model msg).1 } : LoopState M).prevView
      = st.prevView := by
    rw [← preState_prevView (C := C) st msg]
  cases hcmd : (upd st.model msg).2 <;>
    simp [hcmd, preState_prevView, heq]

theorem step_update_render {M C U : Type} (upd : M → LoopMsg U C → M × Option C)
    (vw : M → List Char) (st : LoopState M) (msg : LoopMsg U C)
    (hmsg : isUpdateMsg msg = true)
    (hne : nextFrame upd vw st msg ≠ st.prevView) :
    step upd vw false st msg
      = ⟨⟨(upd st.model msg).1, (preState (C := C) st msg).size,
           (preState (C := C) st msg).altScreen, nextFrame upd vw st msg⟩,
         (match (upd st.model msg).2 with | some c => [c] | none => []),
         preOps msg
           ++ renderOps (preState (C := C) st msg).altScreen st.prevView
                (nextFrame upd vw st msg),
         [msg], 1, Control.cont⟩ := by
  rw [step_eq_updateAndRender upd vw false st msg hmsg]
  unfold updateAndRender
  unfold nextFrame at hne ⊢
  rw [preState_model]
  cases hcmd : (upd st.model msg).2 <;>
    simp [hcmd, preState_prevView, hne]

theorem enterAlt_not_mem_renderOps (alt : Bool) (p cur : List Char) :
    TermOp.enterAltScreen ∉ renderOps alt p cur := by
  cases alt <;> simp [renderOps, List.mem_replicate]

theorem countPrints_append (a b : List TermOp) :
    countPrints (a ++ b) = countPrints a + countPrints b := by
  simp [countPrints, List.filter_append]

theorem countPrints_renderOps (alt : Bool) (p cur : List Char) :
    countPrints (renderOps alt p cur) = 1 := by
  cases alt <;>
    simp [renderOps, countPrints, isPrintOp, List.filter_append,
      List.filter_replicate]

theorem countPrints_preOps {U C : Type} (msg : LoopMsg U C) :
    countPrints (preOps msg) = 0 := by
  cases msg <;> simp [preOps, countPrints, isPrintOp]

theorem preOps_eq_nil {U C : Type} (msg : LoopMsg U C)
    (h : msg ≠ LoopMsg.enterAltScreenMsg) : preOps msg = ([] : List TermOp) := by
  cases msg <;> simp_all [preOps]

theorem mem_left_of_append_decomp {α : Type} {a b l1 l2 : List α} {x p : α}
    (hx : x ∉ a) (hp : p ∈ a) (h : a ++ b = l1 ++ x :: l2) : p ∈ l1 := by
  rcases List.append_eq_append_iff.mp h with ⟨w, hw1, _⟩ | ⟨w, hw1, hw2⟩
  · subst hw1
    exact List.mem_append.mpr (Or.inl hp)
  · cases w with
    | nil =>
      rw [List.append_nil] at hw1
      subst hw1
      exact hp
    | cons y ys =>
      exfalso
      have hy : y = x := by
        have := hw2
        simp at this
        exact this.1.symm
      apply hx
      rw [hw1, hy]
      simp

theorem updateAndRender_ops_cases {M C U : Type}
    (upd : M → LoopMsg U C → M × Option C) (vw : M → List Char) (b : Bool)
    (st : LoopState M) (msg : LoopMsg U C) (pre : List TermOp) :
    (updateAndRender upd vw b st msg pre).ops = pre
    ∨ ∃ cur, (updateAndRender upd vw b st msg pre).ops
        = pre ++ renderOps st.altScreen st.prevView cur := by
  unfold updateAndRender
  rcases hu : (upd st.model msg).2 with _ | c
  · by_cases hf : format (vw (upd st.model msg).1) st.size = st.prevView <;>
      simp [hu, hf]
  · cases b
    · by_cases hf : format (vw (upd st.model msg).1) st.size = st.prevView <;>
        simp [hu, hf]
    · simp [hu]

theorem updateAndRender_st_altScreen {M C U : Type}
    (upd : M → LoopMsg U C → M × Option C) (vw : M → List Char) (b : Bool)
    (st : LoopState M) (msg : LoopMsg U C) (pre : List TermOp) :
    (updateAndRender upd vw b st msg pre).st.altScreen = st.altScreen := by
  unfold updateAndRender
  rcases hu : (upd st.model msg).2 with _ | c
  · by_cases hf : format (vw (upd st.model msg).1) st.size = st.prevView <;>
      simp [hu, hf]
  · cases b
    · by_cases hf : format (vw (upd st.model msg).1) st.size = st.prevView <;>
        simp [hu, hf]
    · simp [hu]

theorem step_ops_enterAlt {M C U : Type}
    (upd : M → LoopMsg U C → M × Option C) (vw : M → List Char) (b : Bool)
    (st : LoopState M) (msg : LoopMsg U C)
    (h : TermOp.enterAltScreen ∈ (step upd vw b st msg).ops) :
    msg = LoopMsg.enterAltScreenMsg := by
  cases msg with
  | enterAltScreenMsg => rfl
  | quitMsg => simp [step] at h
  | batchMsg cmds =>
    simp only [step] at h
    split at h <;> simp at h
  | resizeEvent w h2 =>
    exfalso
    rw [step_eq_updateAndRender upd vw b st (LoopMsg.resizeEvent w h2) rfl] at h
    rcases updateAndRender_ops_cases upd vw b
        (preState st (LoopMsg.resizeEvent w h2)) (LoopMsg.resizeEvent w h2)
        (preOps (LoopMsg.resizeEvent w h2)) with hc | ⟨cur, hc⟩
    · rw [hc] at h
      simp [preOps] at h
    · rw [hc] at h
      simp only [preOps, List.nil_append] at h
      exact enterAlt_not_mem_renderOps _ _ _ h
  | user u =>
    exfalso
    rw [step_eq_updateAndRender upd vw b st (LoopMsg.user u) rfl] at h
    rcases updateAndRender_ops_cases upd vw b (preState st (LoopMsg.user u))
        (LoopMsg.user u) (preOps (LoopMsg.user u)) with hc | ⟨cur, hc⟩
    · rw [hc] at h
      simp [preOps] at h
    · rw [hc] at h
      simp only [preOps, List.nil_append] at h
      exact enterAlt_not_mem_renderOps _ _ _ h

/-! ## Claim theorems -/

/-- Claim C2: once a `QuitMsg` is received the main loop exits immediately:
the quit iteration itself performs no `update` call, no `view` call, no
terminal operation and sends nothing, and the whole run over any message
sequence is unchanged when everything after the first `QuitMsg` is
removed — no later message is updated, viewed or rendered. -/
theorem claim_C2_quit_short_circuits {M C U : Type}
    (upd : M → LoopMsg U C → M × Option C) (vw : M → List Char) (b : Bool)
    (st : LoopState M) (msgs1 msgs2 : List (LoopMsg U C)) :
    step upd vw b st LoopMsg.quitMsg = ⟨st, [], [], [], 0, Control.brk⟩
    ∧ run upd vw b st (msgs1 ++ LoopMsg.quitMsg :: msgs2)
        = run upd vw b st (msgs1 ++ [LoopMsg.quitMsg]) := by
  refine ⟨rfl, ?_⟩
  induction msgs1 generalizing st with
  | nil => simp [run, step]
  | cons m ms ih =>
    simp only [List.cons_append, run]
    cases hc : (step upd vw b st m).control <;> simp [hc, ih]

/-- Claim C3: `cleanup_terminal` invokes the restoration steps in the
fixed order disable raw mode, show cursor, disable mouse capture, leave
alternate screen (the last only when the alternate screen was used);
every step is invoked regardless of earlier failures, and the result is
`error` carrying the first failing step's error, or `ok` when none
failed. -/
theorem claim_C3_cleanup_restoration {E : Type} (term : CleanupBackend E)
    (usedAltScreen : Bool) :
    (cleanup_terminal term usedAltScreen).1
        = ["disable raw mode", "show cursor", "disable mouse capture"]
          ++ (if usedAltScreen then ["leave alternate screen"] else [])
    ∧ (cleanup_terminal term usedAltScreen).2
        = (match
            (([(term.disable_raw_mode, "disable raw mode"),
               (term.show_cursor, "show cursor"),
               (term.disable_mouse_capture, "disable mouse capture")]
              ++ if usedAltScreen then
                   [(term.leave_alt_screen, "leave alternate screen")]
                 else []).filterMap
              (fun p =>
                match p.1 with
                | Except.error e => some (p.2, e)
                | Except.ok _ => none)).head? with
           | some fe => Except.error fe
           | none => Except.ok ()) := by
  obtain ⟨f1, f2, f3, f4⟩ := term
  cases usedAltScreen <;> rcases f1 with e1 | u1 <;> rcases f2 with e2 | u2 <;>
    rcases f3 with e3 | u3 <;> rcases f4 with e4 | u4 <;>
      simp [cleanup_terminal, recordStep]

/-- Claim C4: a `BatchMsg` carrying a command list re-enqueues exactly
those commands on the command channel, in list order, with none dropped
or merged; `Model::update` is not called, nothing is viewed or rendered,
and the loop continues; at run level the batch members head the command
trace of the remaining run. -/
theorem claim_C4_batch_fanout {M C U : Type}
    (upd : M → LoopMsg U C → M × Option C) (vw : M → List Char)
    (st : LoopState M) (cmds : List C) (msgs : List (LoopMsg U C)) :
    step upd vw false st (LoopMsg.batchMsg cmds)
        = ⟨st, cmds, [], [], 0, Control.cont⟩
    ∧ (run upd vw false st (LoopMsg.batchMsg cmds :: msgs)).sent
        = cmds ++ (run upd vw false st msgs).sent := by
  constructor
  · simp [step]
  · simp [run, step]

/-- Claim C6: for an asynchronous command, `Model::execute` receives the
Extensions snapshot and the thunk; a `Some(Sync)` result is run at once
on the same task and its message sent to the message channel, a `Some`
of any other command is resubmitted to the command channel, and `None`
produces nothing. -/
theorem claim_C6_async_execute {Ext Msg : Type}
    (execute : Ext → (Unit → Msg) → Option (Cmd Msg)) (ext : Ext)
    (thunk : Unit → Msg) :
    (∀ t, execute ext thunk = some (Cmd.sync t) →
        execStep execute ext (Cmd.async thunk) = ([t ()], []))
    ∧ (∀ t, execute ext thunk = some (Cmd.async t) →
        execStep execute ext (Cmd.async thunk) = ([], [Cmd.async t]))
    ∧ (execute ext thunk = none →
        execStep execute ext (Cmd.async thunk) = ([], [])) := by
  refine ⟨?_, ?_, ?_⟩
  · intro t ht; simp [execStep, handleAsync, ht]
  · intro t ht; simp [execStep, handleAsync, ht]
  · intro ht; simp [execStep, handleAsync, ht]

/-- Witness for C6: an `execute` that chains a synchronous command onto
the thunk's message; the message is produced on the spawned task and
nothing is resubmitted. -/
theorem claim_C6_witness :
    execStep (fun (_ : Unit) (t : Unit → Nat) => some (Cmd.sync (fun _ => t () + 1)))
        () (Cmd.async (fun _ => 41)) = ([42], []) := by
  have h := (claim_C6_async_execute
      (fun (_ : Unit) (t : Unit → Nat) => some (Cmd.sync (fun _ => t () + 1)))
      () (fun _ => 41)).1 (fun _ => (fun _ : Unit => (41 : Nat)) () + 1) rfl
  simpa using h

/-- Claim C10: both `Program::new` and `Program::new_with_terminal`
unwrap the terminal size query, so a failing query panics (modelled as
`none`) and can never produce a constructed `Program`; a successful
query yields the program with that size and the alternate-screen flag
off. -/
theorem claim_C10_constructor_unwraps_size {M Ext E : Type} (model : M)
    (ext : Ext) (ts : Except E (Nat × Nat)) :
    (∀ e, ts = Except.error e →
        Program.new model ext ts = none
        ∧ Program.new_with_terminal model ext ts = none)
    ∧ (∀ w h, ts = Except.ok (w, h) →
        Program.new model ext ts = some ⟨model, ext, (w, h), false⟩
        ∧ Program.new_with_terminal model ext ts
            = some ⟨model, ext, (w, h), false⟩) := by
  constructor
  · rintro e rfl; exact ⟨rfl, rfl⟩
  · rintro w h rfl; exact ⟨rfl, rfl⟩

/-- Witness for C10: a failing size query constructs no program; a
successful `(80, 24)` query fills the fields. -/
theorem claim_C10_witness :
    Program.new (0 : Nat) (0 : Nat)
        (Except.error (7 : Nat) : Except Nat (Nat × Nat)) = none
    ∧ Program.new_with_terminal (0 : Nat) (0 : Nat)
        (Except.ok ((80 : Nat), (24 : Nat)) : Except Nat (Nat × Nat))
        = some ⟨0, 0, (80, 24), false⟩ := by
  constructor
  · exact ((claim_C10_constructor_unwraps_size 0 0 _).1 7 rfl).1
  · exact ((claim_C10_constructor_unwraps_size 0 0 _).2 80 24 rfl).2

/-- Counterexample to claim C1 as stated: in the iteration processing an
`EnterAltScreenMsg` whose freshly formatted frame is byte-identical to
the previously rendered frame, the runtime still performs terminal
writes: the alternate-screen entry and a full clear happen before the
frame comparison. -/
theorem claim_C1_counterexample :
    nextFrame (fun (_ : Unit) (_ : LoopMsg Unit Unit) => ((), (none : Option Unit)))
        (fun _ => []) ⟨(), (3, 2), false, format [] (3, 2)⟩ LoopMsg.enterAltScreenMsg
      = (⟨(), (3, 2), false, format [] (3, 2)⟩ : LoopState Unit).prevView
    ∧ TermOp.clearAll ∈
        (step (fun (_ : Unit) (_ : LoopMsg Unit Unit) => ((), (none : Option Unit)))
          (fun _ => []) false ⟨(), (3, 2), false, format [] (3, 2)⟩
          LoopMsg.enterAltScreenMsg).ops := by
  constructor
  · rfl
  · decide

/-- Claim C1 (amended): in an iteration whose freshly formatted frame is
byte-identical to the previously rendered frame, the redraw is skipped
entirely — no print and no erase or cursor operation from the redraw
path; the only terminal operations that may still occur are the
alternate-screen entry (enter and clear-all) triggered when the message
itself is `EnterAltScreenMsg`, and for any other update message no
terminal operation at all occurs.  Across two consecutive update cycles
where the first cycle's frame differs from the screen contents and the
second cycle's frame is identical to the first, exactly one terminal
print call occurs (the second is suppressed). -/
theorem claim_C1_idempotent_skip :
    (∀ (M C U : Type) (upd : M → LoopMsg U C → M × Option C)
        (vw : M → List Char) (st : LoopState M) (msg : LoopMsg U C),
        isUpdateMsg msg = true →
        nextFrame upd vw st msg = st.prevView →
        (step upd vw false st msg).ops = preOps msg
        ∧ countPrints (step upd vw false st msg).ops = 0
        ∧ (msg ≠ LoopMsg.enterAltScreenMsg → (step upd vw false st msg).ops = []))
    ∧ (∀ (M C U : Type) (upd : M → LoopMsg U C → M × Option C)
        (vw : M → List Char) (st : LoopState M) (msg1 msg2 : LoopMsg U C),
        isUpdateMsg msg1 = true → isUpdateMsg msg2 = true →
        nextFrame upd vw st msg1 ≠ st.prevView →
        nextFrame upd vw (step upd vw false st msg1).st msg2
            = (step upd vw false st msg1).st.prevView →
        countPrints ((step upd vw false st msg1).ops
            ++ (step upd vw false (step upd vw false st msg1).st msg2).ops) = 1) := by
  constructor
  · intro M C U upd vw st msg hmsg heq
    rw [step_update_skip upd vw st msg hmsg heq]
    refine ⟨rfl, countPrints_preOps msg, ?_⟩
    intro hne
    exact preOps_eq_nil msg hne
  · intro M C U upd vw st msg1 msg2 h1 h2 hne heq
    rw [step_update_skip upd vw (step upd vw false st msg1).st msg2 h2 heq,
      step_update_render upd vw st msg1 h1 hne]
    simp [countPrints_append, countPrints_preOps, countPrints_renderOps]

/-- Witness for the amended C1: a constant model first renders `"ab"`
onto a blank two-column screen (one print), then an identical second
cycle is suppressed — one print across both cycles, and the suppressed
iteration performs no terminal operation. -/
theorem claim_C1_witness :
    countPrints
        ((step (fun (_ : Unit) (_ : LoopMsg Unit Unit) => ((), (none : Option Unit)))
            (fun _ => ['a', 'b']) false ⟨(), (2, 1), false, ['x', 'y']⟩
            (LoopMsg.user ())).ops
          ++ (step (fun (_ : Unit) (_ : LoopMsg Unit Unit) => ((), (none : Option Unit)))
              (fun _ => ['a', 'b']) false
              (step (fun (_ : Unit) (_ : LoopMsg Unit Unit) => ((), (none : Option Unit)))
                (fun _ => ['a', 'b']) false ⟨(), (2, 1), false, ['x', 'y']⟩
                (LoopMsg.user ())).st (LoopMsg.user ())).ops) = 1
    ∧ (step (fun (_ : Unit) (_ : LoopMsg Unit Unit) => ((), (none : Option Unit)))
        (fun _ => ['a', 'b']) false
        (step (fun (_ : Unit) (_ : LoopMsg Unit Unit) => ((), (none : Option Unit)))
          (fun _ => ['a', 'b']) false ⟨(), (2, 1), false, ['x', 'y']⟩
          (LoopMsg.user ())).st (LoopMsg.user ())).ops = [] := by
  constructor
  · exact claim_C1_idempotent_skip.2 Unit Unit Unit
      (fun _ _ => ((), none)) (fun _ => ['a', 'b']) ⟨(), (2, 1), false, ['x', 'y']⟩
      (LoopMsg.user ()) (LoopMsg.user ()) (by decide) (by decide) (by decide)
      (by decide)
  · exact (claim_C1_idempotent_skip.1 Unit Unit Unit
      (fun _ _ => ((), none)) (fun _ => ['a', 'b'])
      (step (fun _ _ => ((), none)) (fun _ => ['a', 'b']) false
        ⟨(), (2, 1), false, ['x', 'y']⟩ (LoopMsg.user ())).st
      (LoopMsg.user ()) (by decide) (by decide)).2.2 (by decide)

/-- Counterexample to claim C7 as stated: re-enqueueing the member of a
`BatchMsg` on a closed command channel does not exit the loop gracefully
— the source calls `unwrap` on the failed send, which panics. -/
theorem claim_C7_counterexample :
    (step (fun (_ : Unit) (_ : LoopMsg Unit Unit) => ((), (none : Option Unit)))
        (fun _ => []) true ⟨(), (3, 2), false, []⟩
        (LoopMsg.batchMsg [()])).control = Control.panicked
    ∧ Control.panicked ≠ Control.brk := by
  exact ⟨rfl, by decide⟩

/-- Claim C7 (amended): when a send on the command channel fails because
the channel is closed, a command returned by `Model::update` makes the
main loop break out of its run phase gracefully — nothing is sent, no
view or render follows; but a member command re-enqueued from a
`BatchMsg` is sent with `unwrap`, so a failed batch send panics instead
of exiting gracefully. -/
theorem claim_C7_closed_channel :
    (∀ (M C U : Type) (upd : M → LoopMsg U C → M × Option C)
        (vw : M → List Char) (st : LoopState M) (msg : LoopMsg U C) (c : C),
        isUpdateMsg msg = true →
        (upd st.model msg).2 = some c →
        step upd vw true st msg
          = ⟨{ preState st msg with model := (upd st.model msg).1 }, [],
             preOps msg, [msg], 0, Control.brk⟩)
    ∧ (∀ (M C U : Type) (upd : M → LoopMsg U C → M × Option C)
        (vw : M → List Char) (st : LoopState M) (cmds : List C),
        cmds ≠ [] →
        step upd vw true st (LoopMsg.batchMsg cmds)
          = ⟨st, [], [], [], 0, Control.panicked⟩) := by
  constructor
  · intro M C U upd vw st msg c hmsg hcmd
    rw [step_eq_updateAndRender upd vw true st msg hmsg]
    unfold updateAndRender
    rw [preState_model]
    simp [hcmd]
  · intro M C U upd vw st cmds hne
    cases cmds with
    | nil => exact absurd rfl hne
    | cons c cs => simp [step]

/-- Witness for the amended C7: a model whose update returns a command
breaks gracefully on a closed channel; a batch member panics. -/
theorem claim_C7_witness :
    (step (fun (_ : Unit) (_ : LoopMsg Unit Unit) => ((), some ())) (fun _ => [])
        true ⟨(), (3, 2), false, []⟩ (LoopMsg.user ())).control = Control.brk
    ∧ (step (fun (_ : Unit) (_ : LoopMsg Unit Unit) => ((), (none : Option Unit)))
        (fun _ => []) true ⟨(), (3, 2), false, []⟩
        (LoopMsg.batchMsg [(), ()])).control = Control.panicked := by
  constructor
  · rw [claim_C7_closed_channel.1 Unit Unit Unit
      (fun _ _ => ((), some ())) (fun _ => []) ⟨(), (3, 2), false, []⟩
      (LoopMsg.user ()) () (by decide) rfl]
  · rw [claim_C7_closed_channel.2 Unit Unit Unit
      (fun _ _ => ((), none)) (fun _ => []) ⟨(), (3, 2), false, []⟩
      [(), ()] (by decide)]

/-- Claim C8: with the default construction (alternate-screen flag off),
a command returned by `init` is queued on the command channel during
initialization but not executed then; the startup trace is exactly hide
cursor, enable raw mode, print of the first frame — no alternate-screen
entry; an `enter_alt_screen` terminal call can only be produced by the
loop iteration that processes an `EnterAltScreenMsg`, which also sets
the alternate-screen flag and clears the screen; hence in the combined
trace every alternate-screen entry is preceded by the first frame
print. -/
theorem claim_C8_alt_screen_deferred :
    (∀ (M C : Type) (initF : M → Nat × Nat → M × Option C) (vw : M → List Char)
        (m0 : M) (sz : Nat × Nat),
        (startup initF vw m0 sz false).2.2
            = [TermOp.hideCursor, TermOp.enableRawMode,
               TermOp.printOp (format (vw (initF m0 sz).1) sz)]
        ∧ TermOp.enterAltScreen ∉ (startup initF vw m0 sz false).2.2
        ∧ ∀ c, (initF m0 sz).2 = some c → (startup initF vw m0 sz false).2.1 = [c])
    ∧ (∀ (M C U : Type) (upd : M → LoopMsg U C → M × Option C)
        (vw : M → List Char) (b : Bool) (st : LoopState M) (msg : LoopMsg U C),
        TermOp.enterAltScreen ∈ (step upd vw b st msg).ops →
        msg = LoopMsg.enterAltScreenMsg)
    ∧ (∀ (M C U : Type) (upd : M → LoopMsg U C → M × Option C)
        (vw : M → List Char) (b : Bool) (st : LoopState M),
        (step upd vw b st (LoopMsg.enterAltScreenMsg : LoopMsg U C)).st.altScreen = true
        ∧ ((step upd vw b st (LoopMsg.enterAltScreenMsg : LoopMsg U C)).ops).take 2
            = [TermOp.enterAltScreen, TermOp.clearAll])
    ∧ (∀ (M C U : Type) (initF : M → Nat × Nat → M × Option C)
        (upd : M → LoopMsg U C → M × Option C) (vw : M → List Char) (m0 : M)
        (sz : Nat × Nat) (msgs : List (LoopMsg U C)) (l1 l2 : List TermOp),
        (startup initF vw m0 sz false).2.2
            ++ (run upd vw false (startup initF vw m0 sz false).1 msgs).ops
          = l1 ++ TermOp.enterAltScreen :: l2 →
        TermOp.printOp (format (vw (initF m0 sz).1) sz) ∈ l1) := by
  refine ⟨?_, ?_, ?_, ?_⟩
  · intro M C initF vw m0 sz
    refine ⟨by simp [startup], by simp [startup], ?_⟩
    intro c hc
    simp [startup, hc]
  · intro M C U upd vw b st msg h
    exact step_ops_enterAlt upd vw b st msg h
  · intro M C U upd vw b st
    rw [step_eq_updateAndRender upd vw b st LoopMsg.enterAltScreenMsg rfl]
    constructor
    · rw [updateAndRender_st_altScreen]
      rfl
    · rcases updateAndRender_ops_cases upd vw b
          (preState st (LoopMsg.enterAltScreenMsg : LoopMsg U C))
          LoopMsg.enterAltScreenMsg
          (preOps (LoopMsg.enterAltScreenMsg : LoopMsg U C)) with hc | ⟨cur, hc⟩
      · rw [hc]
        rfl
      · rw [hc]
        exact List.take_left' rfl
  · intro M C U initF upd vw m0 sz msgs l1 l2 h
    refine mem_left_of_append_decomp (a := (startup initF vw m0 sz false).2.2)
      ?_ ?_ h
    · simp [startup]
    · simp [startup]

/-- Witness for C8: a unit program whose `init` queues a command; the
queued command is observed on the command channel while the startup
trace ends at the first frame print; processing an `EnterAltScreenMsg`
afterwards places the alternate-screen entry strictly after that
print. -/
theorem claim_C8_witness :
    (startup (fun (m : Unit) (_ : Nat × Nat) => (m, some ())) (fun _ => [])
        () (2, 1) false).2.1 = [()]
    ∧ TermOp.printOp (format [] (2, 1))
        ∈ [TermOp.hideCursor, TermOp.enableRawMode,
           TermOp.printOp (format [] (2, 1))] := by
  constructor
  · exact (claim_C8_alt_screen_deferred.1 Unit Unit
      (fun m _ => (m, some ())) (fun _ => []) () (2, 1)).2.2 () rfl
  · exact claim_C8_alt_screen_deferred.2.2.2 Unit Unit Unit
      (fun m _ => (m, some ())) (fun _ _ => ((), none)) (fun _ => []) () (2, 1)
      [LoopMsg.enterAltScreenMsg]
      [TermOp.hideCursor, TermOp.enableRawMode, TermOp.printOp (format [] (2, 1))]
      [TermOp.clearAll] (by decide)

/-- Counterexample to claim C5 as stated: on the line `"a\x1b["` (an
unterminated escape) at width 3, the padded line's visible width as the
render pipeline measures it is 1, not exactly 3 — the padding spaces are
swallowed by the unterminated escape body. -/
theorem claim_C5_counterexample :
    strWidth (remove_escape_sequences (format ['a', escChar, '['] (3, 1))) = 1
    ∧ (1 : Nat) ≠ 3 := by
  exact ⟨by decide, by decide⟩

/-- Claim C5 (amended): the formatter keeps only the last `height` lines
and joins them with CRLF; every output line has visible width (measured
by `remove_escape_sequences` then width) at most `width`; and when every
kept line's escape sequences are complete CSI sequences (escape, `[`
introducer, terminated body) the visible width is exactly `width`.
After a `ResizeEvent (w, h)` the iteration records the new size and the
frame held as `prev_view` is the view formatted at exactly `(w, h)`. -/
theorem claim_C5_format_clamps_pads :
    (∀ (view : List Char) (w h : Nat),
        format view (w, h)
            = joinCRLF (((splitLines view).drop ((splitLines view).length - h)).map
                (fun l => fill_by_space (clamp_by l w) w))
        ∧ (formatLines view w h).length ≤ h
        ∧ (∀ l ∈ formatLines view w h, strWidth (remove_escape_sequences l) ≤ w)
        ∧ ((∀ l ∈ splitLines view, escComplete l) →
            ∀ l ∈ formatLines view w h, strWidth (remove_escape_sequences l) = w))
    ∧ (∀ (M C U : Type) (upd : M → LoopMsg U C → M × Option C)
        (vw : M → List Char) (st : LoopState M) (w h : Nat),
        (step upd vw false st (LoopMsg.resizeEvent w h : LoopMsg U C)).st.size = (w, h)
        ∧ (step upd vw false st (LoopMsg.resizeEvent w h : LoopMsg U C)).st.prevView
            = format (vw (step upd vw false st
                (LoopMsg.resizeEvent w h : LoopMsg U C)).st.model) (w, h)) := by
  constructor
  · intro view w h
    refine ⟨?_, formatLines_length_le view w h, ?_, ?_⟩
    · rw [format, formatLines_eq_drop]
    · intro l hl
      rw [formatLines, List.mem_reverse] at hl
      rcases List.mem_map.mp hl with ⟨l0, hl0, rfl⟩
      exact fill_visible_le _ w (clamp_by_visible_le l0 w)
    · intro hcomp l hl
      rw [formatLines, List.mem_reverse] at hl
      rcases List.mem_map.mp hl with ⟨l0, hl0, rfl⟩
      have hmem := mem_splitLines_of_mem_take view h l0 hl0
      have hend : removeEnd (clamp_by l0 w) .normal = ParseEnd.mode EscMode.normal :=
        clampAux_end_normal w l0 .normal 0 false (hcomp l0 hmem)
      exact fill_visible_eq _ w hend (clamp_by_visible_le l0 w)
  · intro M C U upd vw st w h
    by_cases hf : nextFrame upd vw st (LoopMsg.resizeEvent w h) = st.prevView
    · rw [step_update_skip upd vw st (LoopMsg.resizeEvent w h) rfl hf]
      exact ⟨rfl, hf.symm⟩
    · rw [step_update_render upd vw st (LoopMsg.resizeEvent w h) rfl hf]
      exact ⟨rfl, rfl⟩

/-- Witness for the amended C5: the plain line `"ab"` at width 5,
height 1 is padded to visible width exactly 5. -/
theorem claim_C5_witness :
    strWidth (remove_escape_sequences (format ['a', 'b'] (5, 1))) = 5 := by
  have h := (claim_C5_format_clamps_pads.1 ['a', 'b'] 5 1).2.2.2 (by decide)
  exact h (format ['a', 'b'] (5, 1)) (by decide)

/-- Counterexample to claim C9 as stated: on `"\x1b[31mA"` the claim's
reading of an escape sequence (escape character through the first
following byte in the terminator range) ends the sequence at `[`
(0x5b), leaving `31mA` visible, while `remove_escape_sequences` skips
through the `m` terminator and returns only `A`. -/
theorem claim_C9_counterexample :
    remove_escape_sequences [escChar, '[', '3', '1', 'm', 'A'] = ['A']
    ∧ removeEscapesClaim [escChar, '[', '3', '1', 'm', 'A'] = ['3', '1', 'm', 'A']
    ∧ remove_escape_sequences [escChar, '[', '3', '1', 'm', 'A']
        ≠ removeEscapesClaim [escChar, '[', '3', '1', 'm', 'A'] := by
  exact ⟨by decide, by decide, by decide⟩

/-- Claim C9 (amended): on strings in which every escape character is
immediately followed by the `[` introducer, `remove_escape_sequences`
skips each escape sequence entirely — from the escape character, through
the introducer, to the first subsequent grapheme whose leading byte lies
in 0x40-0x5c or 0x61-0x7a — and returns all other graphemes unchanged
and in order.  (Without the introducer the source scanner stops and
discards the remainder of the string.) -/
theorem claim_C9_escape_skip (s : List Char)
    (h : introducersOk s EscMode.normal = true) :
    remove_escape_sequences s = removeEscapesAmendedAux s EscMode.normal :=
  removeAux_eq_amended s EscMode.normal h

/-- Witness for the amended C9: `"x\x1b[my"` keeps exactly `x` and `y`. -/
theorem claim_C9_witness :
    remove_escape_sequences ['x', escChar, '[', 'm', 'y']
      = removeEscapesAmendedAux ['x', escChar, '[', 'm', 'y'] EscMode.normal :=
  claim_C9_escape_skip ['x', escChar, '[', 'm', 'y'] (by decide)

end Matcha
